import Mathlib

/-!
Verification of the document-similarity search core of the TestChatBot
repository, as described by its specification.

Two store variants are embedded from the source:

* `SimpleVectorStore` (src/scraper.js): a local term-frequency embedder
  (`createEmbedding`), an intersection-based cosine similarity
  (`cosineSimilarity`), and `search` which sorts descending, truncates to
  the limit and then filters out similarities `<= 0.1`.

* `VectorStore` (src/vector_embeddings.js): a remote dense-embedding store
  with sentence-aware chunking (`splitTextIntoChunks`), full-dimension
  cosine similarity (`calculateSimilarity`), `search`, `getStats` and
  `loadFromFile`.

Modelling conventions:

* JavaScript numbers are idealised as exact rationals (`ℚ`) for vector
  components, with `Math.sqrt` mapped to `Real.sqrt`, so similarity scores
  live in `ℝ`.  An IEEE NaN produced by reading past the end of an array
  (`undefined` arithmetic) is modelled as `Option.none` where a claim
  depends on it (`calculateSimilarity`).  JavaScript division by zero
  (`0/0 = NaN`) is likewise modelled with `Option` in `getStats`.
* `Array.prototype.sort` with comparator `(a, b) => b.similarity - a.similarity`
  is a stable sort ordering by descending similarity (ECMAScript 2019
  requires stability).  A stable sort's output is uniquely determined by
  the key and the input order, so it is embedded as the left-to-right
  stable insertion sort `sortDesc`.
* File-system and JSON effects of `loadFromFile` are abstracted into a
  `FileRead` argument: the file is missing, its contents fail to parse
  (where `JSON.parse` throws, modelled as `Except.error`), or they parse
  to a `PersistedData` record whose fields may be absent (`data.vectors || []`).
* The remote embedding service is abstracted as a function argument
  `embed : String → List ℚ` where a model needs it (`addText`).
-/

/-- JavaScript string values used as tokens are modelled as character lists. -/
abbrev Token := List Char

/-- Caller-supplied metadata objects; no claim inspects their contents, so
an association list of strings suffices. -/
abbrev Metadata := List (String × String)

/-- A character matched by the JavaScript `\w` class: ASCII letters, digits
and underscore. -/
def isWordChar (c : Char) : Bool :=
  ('a' ≤ c && c ≤ 'z') || ('A' ≤ c && c ≤ 'Z') || ('0' ≤ c && c ≤ '9') || c == '_'

/-- Whitespace removed by JavaScript `String.prototype.trim`. -/
def isJsSpace (c : Char) : Bool :=
  c == ' ' || c == '\t' || c == '\n' || c == '\r'

/-- Sentence-terminating punctuation used by `splitTextIntoChunks`:
the regular expression `[.!?]+`. -/
def isSentenceEnd (c : Char) : Bool :=
  c == '.' || c == '!' || c == '?'

/-- Worker for `runsP`: `cur` is the current (reversed) run of characters
satisfying `p`. -/
def runsPGo (p : Char → Bool) (cur : List Char) : List Char → List (List Char)
  | [] => if cur = [] then [] else [cur.reverse]
  | c :: cs =>
    if p c then runsPGo p (c :: cur) cs
    else if cur = [] then runsPGo p [] cs else cur.reverse :: runsPGo p [] cs

/-- The maximal nonempty runs of characters satisfying `p`, in order.
`runsP isWordChar` is the JavaScript global match `\b\w+\b`;
`runsP (fun c => !isSentenceEnd c)` is `split(/[.!?]+/)` with the empty
pieces dropped (the source drops them with its `filter` anyway). -/
def runsP (p : Char → Bool) (l : List Char) : List (List Char) :=
  runsPGo p [] l

/-- JavaScript `String.prototype.trim` (restricted to the ASCII whitespace
relevant here). -/
def jsTrim (l : List Char) : List Char :=
  ((l.dropWhile isJsSpace).reverse.dropWhile isJsSpace).reverse

/-- Distinct elements of a list in first-seen order: the key set of a
JavaScript object populated left to right.  (`Object.keys` additionally
hoists integer-like keys; every property proved below is independent of
the enumeration order.) -/
def distinctFirstSeen {α : Type} [DecidableEq α] (l : List α) : List α :=
  l.foldl (fun acc x => if x ∈ acc then acc else acc ++ [x]) []

/-- The value returned by `SimpleVectorStore.createEmbedding`:
`{ vector, vocabulary, text }`. -/
structure Embedding where
  vector : List ℚ
  vocabulary : List Token
  text : String
deriving DecidableEq

/-- `text.toLowerCase().match(/\b\w+\b/g) || []` (src/scraper.js line 14). -/
def tokensOf (text : String) : List Token :=
  runsP isWordChar (text.toList.map Char.toLower)

/-- `SimpleVectorStore.createEmbedding` (src/scraper.js lines 13-27):
count word frequencies, take the distinct words as the vocabulary and
pair each with its frequency divided by the total token count. -/
def createEmbedding (text : String) : Embedding :=
  let words := tokensOf text
  let vocabulary := distinctFirstSeen words
  { vector := vocabulary.map (fun w => (words.count w : ℚ) / (words.length : ℚ))
    vocabulary := vocabulary
    text := text }

/-- `vocab1.filter(word => vocab2.includes(word))` (src/scraper.js line 37). -/
def commonWords (vocab1 vocab2 : List Token) : List Token :=
  vocab1.filter (fun w => decide (w ∈ vocab2))

/-- The pairs `(vec1[idx1] || 0, vec2[idx2] || 0)` accumulated by the
`forEach` loop of `cosineSimilarity` (src/scraper.js lines 44-53). -/
def interVals (vec1 vec2 : List ℚ) (vocab1 vocab2 : List Token) : List (ℚ × ℚ) :=
  (commonWords vocab1 vocab2).map
    (fun w => (vec1.getD (vocab1.indexOf w) 0, vec2.getD (vocab2.indexOf w) 0))

/-- The accumulated `dotProduct` of `SimpleVectorStore.cosineSimilarity`. -/
def interDot (vec1 vec2 : List ℚ) (vocab1 vocab2 : List Token) : ℚ :=
  ((interVals vec1 vec2 vocab1 vocab2).map (fun p => p.1 * p.2)).sum

/-- The accumulated `norm1` (before the square root). -/
def interNorm1 (vec1 vec2 : List ℚ) (vocab1 vocab2 : List Token) : ℚ :=
  ((interVals vec1 vec2 vocab1 vocab2).map (fun p => p.1 * p.1)).sum

/-- The accumulated `norm2` (before the square root). -/
def interNorm2 (vec1 vec2 : List ℚ) (vocab1 vocab2 : List Token) : ℚ :=
  ((interVals vec1 vec2 vocab1 vocab2).map (fun p => p.2 * p.2)).sum

/-- `SimpleVectorStore.cosineSimilarity` (src/scraper.js lines 36-56):
similarity over the intersection of the two vocabularies, `0` when the
intersection is empty. -/
noncomputable def cosineSimilarity (vec1 vec2 : List ℚ) (vocab1 vocab2 : List Token) : ℝ :=
  if commonWords vocab1 vocab2 = [] then 0
  else
    (interDot vec1 vec2 vocab1 vocab2 : ℝ) /
      (Real.sqrt (interNorm1 vec1 vec2 vocab1 vocab2 : ℝ) *
        Real.sqrt (interNorm2 vec1 vec2 vocab1 vocab2 : ℝ))

/-- A record of `this.documents` in `SimpleVectorStore`. -/
structure LocalDocument where
  text : String
  metadata : Metadata
  embedding : Embedding
deriving DecidableEq

/-- The state of a `SimpleVectorStore` (src/scraper.js lines 6-10). -/
structure SimpleVectorStore where
  documents : List LocalDocument
  embeddings : List Embedding
deriving DecidableEq

/-- `SimpleVectorStore.addDocument` (src/scraper.js lines 29-33). -/
def SimpleVectorStore.addDocument (st : SimpleVectorStore) (text : String)
    (metadata : Metadata) : SimpleVectorStore :=
  let embedding := createEmbedding text
  { documents := st.documents ++ [⟨text, metadata, embedding⟩]
    embeddings := st.embeddings ++ [embedding] }

/-- An element of the `similarities` array built by
`SimpleVectorStore.search` (src/scraper.js lines 60-68): note it carries
only the document and the score, no index field. -/
structure ScoredDoc where
  document : LocalDocument
  similarity : ℝ

/-- Stable insertion of `x` into a descending-sorted list: `x` goes after
every element whose key is at least `key x`. -/
noncomputable def insertDesc {α : Type} (key : α → ℝ) (x : α) : List α → List α
  | [] => [x]
  | y :: ys => if key x ≤ key y then y :: insertDesc key x ys else x :: y :: ys

/-- The stable descending sort performed by
`.sort((a, b) => b.similarity - a.similarity)`: elements are inserted in
input order, ties keeping the earlier element first.  A stable sort's
output is unique, so this is the ECMAScript behaviour. -/
noncomputable def sortDesc {α : Type} (key : α → ℝ) (l : List α) : List α :=
  l.foldl (fun acc x => insertDesc key x acc) []

/-- The `similarities` array of `SimpleVectorStore.search`
(src/scraper.js lines 60-68). -/
noncomputable def scoredList (st : SimpleVectorStore) (query : String) : List ScoredDoc :=
  st.documents.map (fun doc =>
    ⟨doc, cosineSimilarity (createEmbedding query).vector doc.embedding.vector
      (createEmbedding query).vocabulary doc.embedding.vocabulary⟩)

/-- `SimpleVectorStore.search` (src/scraper.js lines 58-74): sort by
descending similarity, `slice(0, limit)`, then filter out similarities
at or below `0.1`. -/
noncomputable def SimpleVectorStore.search (st : SimpleVectorStore) (query : String)
    (limit : ℕ) : List ScoredDoc :=
  ((sortDesc ScoredDoc.similarity (scoredList st query)).take limit).filter
    (fun r => decide ((0.1 : ℝ) < r.similarity))

/-- The metadata attached to each chunk by `VectorStore.addText`:
the caller's metadata spread together with `chunkIndex`, `totalChunks`
and `originalLength`. -/
structure RMeta where
  base : Metadata
  chunkIndex : ℕ
  totalChunks : ℕ
  originalLength : ℕ
deriving DecidableEq

/-- The state of a `VectorStore` (src/vector_embeddings.js lines 19-21):
three parallel arrays. -/
structure VectorStore where
  vectors : List (List ℚ)
  texts : List String
  metadata : List RMeta
deriving DecidableEq

/-- `text.split(/[.!?]+/).filter(s => s.trim().length > 0)`
(src/vector_embeddings.js line 26). -/
def sentencesOf (l : List Char) : List (List Char) :=
  (runsP (fun c => !isSentenceEnd c) l).filter (fun s => decide (jsTrim s ≠ []))

/-- One iteration of the chunk-accumulation loop of `splitTextIntoChunks`
(src/vector_embeddings.js lines 30-37); the state is
`(chunks, currentChunk)`. -/
def chunkStep (maxChunkSize : ℕ) (st : List (List Char) × List Char)
    (sentence : List Char) : List (List Char) × List Char :=
  if maxChunkSize < st.2.length + sentence.length ∧ 0 < st.2.length then
    (st.1 ++ [jsTrim st.2], jsTrim sentence)
  else
    (st.1, st.2 ++ (if st.2 = [] then [] else ['.', ' ']) ++ jsTrim sentence)

/-- `VectorStore.splitTextIntoChunks` (src/vector_embeddings.js lines 25-44);
the source's default `maxChunkSize` is 1000. -/
def splitTextIntoChunks (text : String) (maxChunkSize : ℕ) : List (List Char) :=
  let result := (sentencesOf text.toList).foldl (chunkStep maxChunkSize) ([], [])
  if jsTrim result.2 ≠ [] then result.1 ++ [jsTrim result.2] else result.1

/-- Index-decorated copy of a list, indices starting at `n`. -/
def zipIdxFrom {α : Type} (n : ℕ) : List α → List (ℕ × α)
  | [] => []
  | x :: xs => (n, x) :: zipIdxFrom (n + 1) xs

/-- `VectorStore.addText` (src/vector_embeddings.js lines 58-81): chunk the
text (default maximum size 1000), embed each chunk through the remote
service (abstracted as `embed`), and push vector, text and augmented
metadata onto the three parallel arrays. -/
def VectorStore.addText (embed : String → List ℚ) (st : VectorStore) (text : String)
    (md : Metadata) : VectorStore :=
  let chunks := splitTextIntoChunks text 1000
  (zipIdxFrom 0 chunks).foldl
    (fun s p =>
      { vectors := s.vectors ++ [embed (String.mk p.2)]
        texts := s.texts ++ [String.mk p.2]
        metadata := s.metadata ++ [⟨md, p.1, chunks.length, text.toList.length⟩] })
    st

/-- Sum of squares of a vector (the `norm` accumulators of
`calculateSimilarity` before the square root). -/
def sumSq (v : List ℚ) : ℚ :=
  (v.map (fun x => x * x)).sum

/-- The arithmetic of `VectorStore.calculateSimilarity`
(src/vector_embeddings.js lines 84-104) in the regime
`vector1.length ≤ vector2.length`, where every array access of the loop
(which runs `i` from `0` to `vector1.length - 1`) is in bounds:
`List.zip` truncates at `vector1.length` there.  The zero-norm guard
returns `0`. -/
noncomputable def cosineSimCore (v1 v2 : List ℚ) : ℝ :=
  let ps := v1.zip v2
  let dot : ℚ := (ps.map (fun p => p.1 * p.2)).sum
  let n1 : ℚ := (ps.map (fun p => p.1 * p.1)).sum
  let n2 : ℚ := (ps.map (fun p => p.2 * p.2)).sum
  if Real.sqrt (n1 : ℝ) = 0 ∨ Real.sqrt (n2 : ℝ) = 0 then 0
  else (dot : ℝ) / (Real.sqrt (n1 : ℝ) * Real.sqrt (n2 : ℝ))

/-- `VectorStore.calculateSimilarity` in full.  When
`vector1.length > vector2.length` the loop reads `vector2[i]` out of
bounds: `undefined` arithmetic makes `dotProduct` and `norm2` NaN.  The
guard `norm1 === 0` still fires first (NaN `===` comparisons are false),
so an all-zero `vector1` returns `0`; otherwise the result is NaN,
modelled as `none`. -/
noncomputable def VectorStore.calculateSimilarity (v1 v2 : List ℚ) : Option ℝ :=
  if v1.length ≤ v2.length then some (cosineSimCore v1 v2)
  else if sumSq v1 = 0 then some 0 else none

/-- An element of the `similarities` array of `VectorStore.search`
(src/vector_embeddings.js lines 114-119): `{text, metadata, similarity, index}`. -/
structure RemoteResult where
  text : String
  metadata : RMeta
  similarity : ℝ
  index : ℕ

/-- The `similarities` array of `VectorStore.search`: one entry per stored
vector, `index: i` the loop index.  The out-of-range defaults of `getD`
are never reached on a store whose parallel arrays have equal length.
Queries and stored vectors come from the same embedding service, so the
similarity is the shared-dimension value `cosineSimCore`. -/
noncomputable def VectorStore.simList (st : VectorStore) (queryVec : List ℚ) :
    List RemoteResult :=
  (List.range st.vectors.length).map (fun i =>
    ⟨st.texts.getD i "", st.metadata.getD i ⟨[], 0, 0, 0⟩,
      cosineSimCore queryVec (st.vectors.getD i []), i⟩)

/-- `VectorStore.search` (src/vector_embeddings.js lines 107-130): score
every stored vector, sort by descending similarity and `slice(0, topK)`.
No low-similarity filter is applied. -/
noncomputable def VectorStore.search (st : VectorStore) (queryVec : List ℚ)
    (topK : ℕ) : List RemoteResult :=
  (sortDesc RemoteResult.similarity (st.simList queryVec)).take topK

/-- The record returned by `VectorStore.getStats`. -/
structure VectorStats where
  totalVectors : ℕ
  totalTexts : ℕ
  averageTextLength : Option ℚ
  vectorDimension : ℕ
deriving DecidableEq

/-- `VectorStore.getStats` (src/vector_embeddings.js lines 159-166).  The
division computing `averageTextLength` is unguarded in the source: on an
empty store JavaScript evaluates `0 / 0 = NaN`, modelled as `none`. -/
def VectorStore.getStats (st : VectorStore) : VectorStats :=
  { totalVectors := st.vectors.length
    totalTexts := st.texts.length
    averageTextLength :=
      if st.texts.length = 0 then none
      else some ((st.texts.map (fun t => (t.toList.length : ℚ))).sum / (st.texts.length : ℚ))
    vectorDimension := if 0 < st.vectors.length then (st.vectors.headD []).length else 0 }

/-- The record persisted by `saveToFile`, as recovered by `JSON.parse`;
each field may be absent (`data.vectors || []` supplies `[]`). -/
structure PersistedData where
  vectors : Option (List (List ℚ))
  texts : Option (List String)
  metadata : Option (List RMeta)
deriving DecidableEq

/-- Outcome of reading the persisted file: `fs.existsSync` false, or the
read/`JSON.parse` step throws, or a parsed record. -/
inductive FileRead where
  | missing
  | unparseable
  | parsed (d : PersistedData)
deriving DecidableEq

/-- `VectorStore.loadFromFile` (src/vector_embeddings.js lines 146-156).
A missing file returns `false` leaving the store unchanged; a file whose
contents fail to parse makes `JSON.parse` throw, so the exception
propagates (`Except.error`); a parsed record replaces all three arrays
and returns `true`. -/
def VectorStore.loadFromFile (st : VectorStore) (f : FileRead) :
    Except Unit (Bool × VectorStore) :=
  match f with
  | .missing => .ok (false, st)
  | .unparseable => .error ()
  | .parsed d => .ok (true, ⟨d.vectors.getD [], d.texts.getD [], d.metadata.getD []⟩)

/-- The store state and query used in several concrete checks below. -/
def docA : LocalDocument :=
  ⟨"a", [], createEmbedding "a"⟩

/-- A document sharing no vocabulary with `docA`. -/
def docB : LocalDocument :=
  ⟨"b", [], createEmbedding "b"⟩

/-- A one-document local store. -/
def storeA1 : SimpleVectorStore :=
  ⟨[docA], [createEmbedding "a"]⟩

/-- A two-document local store holding `docA` at position 1. -/
def storeBA : SimpleVectorStore :=
  ⟨[docB, docA], [createEmbedding "b", createEmbedding "a"]⟩

/-- A local store with two copies of `docA`. -/
def storeAA : SimpleVectorStore :=
  ⟨[docA, docA], [createEmbedding "a", createEmbedding "a"]⟩

/-- An empty remote store. -/
def emptyVS : VectorStore :=
  ⟨[], [], []⟩

/-- A remote store with one record of text length 2. -/
def vsOne : VectorStore :=
  ⟨[[1]], ["ab"], [⟨[], 0, 1, 2⟩]⟩

/-- A remote store with two one-dimensional records. -/
def rstore2 : VectorStore :=
  ⟨[[1], [0]], ["t0", "t1"], [⟨[], 0, 2, 11⟩, ⟨[], 1, 2, 11⟩]⟩

/-- The length of the longest sentence produced by the splitting step of
`splitTextIntoChunks`; a sentence longer than `maxChunkSize` becomes a
chunk on its own. -/
def maxSentenceLen (text : String) : ℕ :=
  ((sentencesOf text.toList).map List.length).foldr max 0

/-- The C3 reading of the source for the local strategy: some field of each
search result recovers the matched document's zero-based position in the
full record list. -/
def localResultsCarryIndex : Prop :=
  ∃ ix : ScoredDoc → ℕ, ∀ (st : SimpleVectorStore) (q : String) (k : ℕ),
    ∀ r ∈ st.search q k, st.documents.get? (ix r) = some r.document

theorem foldl_insert_mem {α : Type} [DecidableEq α] :
    ∀ (l acc : List α) (x : α),
      x ∈ l.foldl (fun acc y => if y ∈ acc then acc else acc ++ [y]) acc ↔
        x ∈ acc ∨ x ∈ l := by
  intro l
  induction l with
  | nil => simp
  | cons y ys ih =>
    intro acc x
    simp only [List.foldl_cons]
    rw [ih]
    by_cases h : y ∈ acc
    · simp only [if_pos h, List.mem_cons]
      constructor
      · rintro (hx | hx)
        · exact Or.inl hx
        · exact Or.inr (Or.inr hx)
      · rintro (hx | hx | hx)
        · exact Or.inl hx
        · exact Or.inl (hx ▸ h)
        · exact Or.inr hx
    · simp only [if_neg h, List.mem_append, List.mem_singleton, List.mem_cons]
      tauto

theorem mem_distinctFirstSeen {α : Type} [DecidableEq α] (l : List α) (x : α) :
    x ∈ distinctFirstSeen l ↔ x ∈ l := by
  unfold distinctFirstSeen
  rw [foldl_insert_mem]
  simp

theorem foldl_insert_nodup {α : Type} [DecidableEq α] :
    ∀ (l acc : List α), acc.Nodup →
      (l.foldl (fun acc y => if y ∈ acc then acc else acc ++ [y]) acc).Nodup := by
  intro l
  induction l with
  | nil => intro acc h; simpa using h
  | cons y ys ih =>
    intro acc h
    simp only [List.foldl_cons]
    by_cases hy : y ∈ acc
    · rw [if_pos hy]; exact ih acc h
    · rw [if_neg hy]
      refine ih _ ?_
      rw [List.nodup_append]
      refine ⟨h, List.nodup_singleton y, ?_⟩
      intro a ha hb
      rw [List.mem_singleton] at hb
      exact hy (hb ▸ ha)

theorem nodup_distinctFirstSeen {α : Type} [DecidableEq α] (l : List α) :
    (distinctFirstSeen l).Nodup :=
  foldl_insert_nodup l [] List.nodup_nil

theorem distinctFirstSeen_eq_nil {α : Type} [DecidableEq α] (l : List α) :
    distinctFirstSeen l = [] ↔ l = [] := by
  constructor
  · intro h
    by_contra hl
    obtain ⟨x, hx⟩ := List.exists_mem_of_ne_nil l hl
    have : x ∈ distinctFirstSeen l := (mem_distinctFirstSeen l x).mpr hx
    rw [h] at this
    exact (List.not_mem_nil x) this
  · intro h
    subst h
    rfl

theorem zipIdxFrom_map_snd {α : Type} : ∀ (n : ℕ) (l : List α),
    (zipIdxFrom n l).map Prod.snd = l := by
  intro n l
  induction l generalizing n with
  | nil => rfl
  | cons x xs ih => simp [zipIdxFrom, ih]

theorem mem_zipIdxFrom {α : Type} : ∀ (n : ℕ) (l : List α) (p : ℕ × α),
    p ∈ zipIdxFrom n l → n ≤ p.1 ∧ l.get? (p.1 - n) = some p.2 := by
  intro n l
  induction l generalizing n with
  | nil => intro p hp; exact absurd hp (List.not_mem_nil p)
  | cons x xs ih =>
    intro p hp
    rw [zipIdxFrom, List.mem_cons] at hp
    rcases hp with hp | hp
    · subst hp
      exact ⟨le_refl n, by simp⟩
    · obtain ⟨h1, h2⟩ := ih (n + 1) p hp
      refine ⟨le_trans (Nat.le_succ n) h1, ?_⟩
      have hgt : p.1 - n = (p.1 - (n + 1)) + 1 := by omega
      rw [hgt, List.get?_cons_succ]
      exact h2

theorem pairwise_fst_lt_zipIdxFrom {α : Type} : ∀ (n : ℕ) (l : List α),
    (zipIdxFrom n l).Pairwise (fun a b => a.1 < b.1) := by
  intro n l
  induction l generalizing n with
  | nil => exact List.Pairwise.nil
  | cons x xs ih =>
    rw [zipIdxFrom, List.pairwise_cons]
    refine ⟨?_, ih (n + 1)⟩
    intro p hp
    have := (mem_zipIdxFrom (n + 1) xs p hp).1
    omega

theorem mem_insertDesc {α : Type} (key : α → ℝ) (x : α) :
    ∀ (l : List α) (z : α), z ∈ insertDesc key x l ↔ z = x ∨ z ∈ l := by
  intro l
  induction l with
  | nil => intro z; simp [insertDesc]
  | cons y ys ih =>
    intro z
    rw [insertDesc]
    by_cases h : key x ≤ key y
    · rw [if_pos h]
      simp only [List.mem_cons, ih]
      tauto
    · rw [if_neg h]
      simp only [List.mem_cons]

theorem insertDesc_perm {α : Type} (key : α → ℝ) (x : α) :
    ∀ l : List α, (insertDesc key x l).Perm (x :: l) := by
  intro l
  induction l with
  | nil => rw [insertDesc]
  | cons y ys ih =>
    rw [insertDesc]
    by_cases h : key x ≤ key y
    · rw [if_pos h]
      exact (List.Perm.cons y ih).trans (List.Perm.swap x y ys)
    · rw [if_neg h]

theorem sortDesc_perm_aux {α : Type} (key : α → ℝ) :
    ∀ (l acc : List α),
      (l.foldl (fun acc x => insertDesc key x acc) acc).Perm (acc ++ l) := by
  intro l
  induction l with
  | nil => intro acc; simp
  | cons x xs ih =>
    intro acc
    simp only [List.foldl_cons]
    refine (ih (insertDesc key x acc)).trans ?_
    refine (List.Perm.append_right xs (insertDesc_perm key x acc)).trans ?_
    exact (List.perm_middle).symm

theorem sortDesc_perm {α : Type} (key : α → ℝ) (l : List α) :
    (sortDesc key l).Perm l := by
  have := sortDesc_perm_aux key l []
  simpa [sortDesc] using this

theorem mem_sortDesc {α : Type} (key : α → ℝ) (l : List α) (x : α) :
    x ∈ sortDesc key l ↔ x ∈ l :=
  (sortDesc_perm key l).mem_iff

theorem stable_rel_key_le {α : Type} {key : α → ℝ} {R : α → α → Prop} {a b : α}
    (h : key b < key a ∨ (key a = key b ∧ R a b)) : key b ≤ key a := by
  rcases h with h | ⟨h, _⟩
  · exact le_of_lt h
  · exact le_of_eq h.symm

theorem insertDesc_pairwise_stable {α : Type} (key : α → ℝ) (R : α → α → Prop) (x : α) :
    ∀ l : List α,
      l.Pairwise (fun a b => key b < key a ∨ (key a = key b ∧ R a b)) →
      (∀ y ∈ l, R y x) →
      (insertDesc key x l).Pairwise
        (fun a b => key b < key a ∨ (key a = key b ∧ R a b)) := by
  intro l
  induction l with
  | nil => intro _ _; simp [insertDesc]
  | cons y ys ih =>
    intro hl hx
    rw [List.pairwise_cons] at hl
    obtain ⟨hy, hys⟩ := hl
    rw [insertDesc]
    by_cases h : key x ≤ key y
    · rw [if_pos h, List.pairwise_cons]
      constructor
      · intro z hz
        rcases (mem_insertDesc key x ys z).mp hz with hz | hz
        · subst hz
          rcases lt_or_eq_of_le h with hlt | heq
          · exact Or.inl hlt
          · exact Or.inr ⟨heq.symm, hx y (List.mem_cons_self y ys)⟩
        · exact hy z hz
      · exact ih hys (fun z hz => hx z (List.mem_cons_of_mem y hz))
    · rw [if_neg h, List.pairwise_cons]
      push_neg at h
      constructor
      · intro z hz
        rcases List.mem_cons.mp hz with hz | hz
        · exact Or.inl (hz ▸ h)
        · exact Or.inl (lt_of_le_of_lt (stable_rel_key_le (hy z hz)) h)
      · rw [List.pairwise_cons]
        exact ⟨hy, hys⟩

theorem sortDesc_pairwise_stable_aux {α : Type} (key : α → ℝ) (R : α → α → Prop) :
    ∀ (l acc : List α),
      l.Pairwise R →
      acc.Pairwise (fun a b => key b < key a ∨ (key a = key b ∧ R a b)) →
      (∀ a ∈ acc, ∀ b ∈ l, R a b) →
      (l.foldl (fun acc x => insertDesc key x acc) acc).Pairwise
        (fun a b => key b < key a ∨ (key a = key b ∧ R a b)) := by
  intro l
  induction l with
  | nil => intro acc _ hacc _; exact hacc
  | cons x xs ih =>
    intro acc hl hacc hcross
    rw [List.pairwise_cons] at hl
    obtain ⟨hxxs, hxs⟩ := hl
    simp only [List.foldl_cons]
    refine ih (insertDesc key x acc) hxs ?_ ?_
    · exact insertDesc_pairwise_stable key R x acc hacc
        (fun y hy => hcross y hy x (List.mem_cons_self x xs))
    · intro a ha b hb
      rcases (mem_insertDesc key x acc a).mp ha with ha | ha
      · exact ha ▸ hxxs b hb
      · exact hcross a ha b (List.mem_cons_of_mem x hb)

theorem sortDesc_pairwise_stable {α : Type} (key : α → ℝ) (R : α → α → Prop)
    (l : List α) (hl : l.Pairwise R) :
    (sortDesc key l).Pairwise (fun a b => key b < key a ∨ (key a = key b ∧ R a b)) := by
  exact sortDesc_pairwise_stable_aux key R l [] hl List.Pairwise.nil (by intro a ha; cases ha)

theorem pairwise_true {α : Type} (l : List α) : l.Pairwise (fun _ _ => True) := by
  induction l with
  | nil => exact List.Pairwise.nil
  | cons x xs ih => exact List.Pairwise.cons (fun _ _ => trivial) ih

theorem sortDesc_sorted {α : Type} (key : α → ℝ) (l : List α) :
    (sortDesc key l).Pairwise (fun a b => key b ≤ key a) := by
  refine (sortDesc_pairwise_stable key (fun _ _ => True) l (pairwise_true l)).imp ?_
  intro a b h
  rcases h with h | ⟨h, _⟩
  · exact le_of_lt h
  · exact le_of_eq h.symm

theorem insertDesc_map {α β : Type} (key : α → ℝ) (g : β → α) (x : β) :
    ∀ l : List β, insertDesc key (g x) (l.map g) = (insertDesc (fun b => key (g b)) x l).map g := by
  intro l
  induction l with
  | nil => simp [insertDesc]
  | cons y ys ih =>
    simp only [List.map_cons]
    rw [insertDesc, insertDesc]
    by_cases h : key (g x) ≤ key (g y)
    · rw [if_pos h, if_pos h, ih, List.map_cons]
    · rw [if_neg h, if_neg h]
      simp

theorem sortDesc_map_aux {α β : Type} (key : α → ℝ) (g : β → α) :
    ∀ (l : List β) (acc : List β),
      (l.map g).foldl (fun acc x => insertDesc key x acc) (acc.map g) =
        (l.foldl (fun acc x => insertDesc (fun b => key (g b)) x acc) acc).map g := by
  intro l
  induction l with
  | nil => intro acc; simp
  | cons x xs ih =>
    intro acc
    simp only [List.map_cons, List.foldl_cons]
    rw [insertDesc_map key g x acc, ih]

theorem sortDesc_map {α β : Type} (key : α → ℝ) (g : β → α) (l : List β) :
    sortDesc key (l.map g) = (sortDesc (fun b => key (g b)) l).map g := by
  have := sortDesc_map_aux key g l []
  simpa [sortDesc] using this

theorem filter_eq_takeWhile_of_sorted {α : Type} (key : α → ℝ) (t : ℝ) :
    ∀ l : List α, l.Pairwise (fun a b => key b ≤ key a) →
      l.filter (fun a => decide (t < key a)) = l.takeWhile (fun a => decide (t < key a)) := by
  intro l
  induction l with
  | nil => intro _; rfl
  | cons x xs ih =>
    intro hl
    rw [List.pairwise_cons] at hl
    obtain ⟨hx, hxs⟩ := hl
    by_cases h : t < key x
    · rw [List.filter_cons, List.takeWhile_cons]
      simp only [decide_eq_true_eq, if_pos h, ih hxs]
    · rw [List.filter_cons, List.takeWhile_cons]
      simp only [decide_eq_true_eq, if_neg h]
      rw [List.filter_eq_nil_iff.mpr]
      intro a ha
      simp only [decide_eq_true_eq]
      push_neg at h
      intro hta
      exact absurd (lt_of_lt_of_le hta (le_trans (hx a ha) h)) (lt_irrefl t)

theorem takeWhile_take {α : Type} (p : α → Bool) :
    ∀ (l : List α) (k : ℕ), (l.take k).takeWhile p = (l.takeWhile p).take k := by
  intro l
  induction l with
  | nil => intro k; simp
  | cons x xs ih =>
    intro k
    cases k with
    | zero => simp
    | succ k =>
      rw [List.take_cons_succ, List.takeWhile_cons, List.takeWhile_cons]
      by_cases h : p x = true
      · rw [if_pos h, if_pos h, List.take_cons_succ, ih]
      · rw [if_neg h, if_neg h]
        rfl

theorem length_take_filter_of_sorted {α : Type} (key : α → ℝ) (t : ℝ) (l : List α)
    (hl : l.Pairwise (fun a b => key b ≤ key a)) (k : ℕ) :
    ((l.take k).filter (fun a => decide (t < key a))).length =
      min k (l.countP (fun a => decide (t < key a))) := by
  have hsub : (l.take k).Pairwise (fun a b => key b ≤ key a) :=
    List.Pairwise.sublist (List.take_sublist k l) hl
  rw [filter_eq_takeWhile_of_sorted key t (l.take k) hsub, takeWhile_take,
    List.length_take, ← filter_eq_takeWhile_of_sorted key t l hl,
    List.countP_eq_length_filter]

theorem createEmbedding_vocabulary (t : String) :
    (createEmbedding t).vocabulary = distinctFirstSeen (tokensOf t) := rfl

theorem createEmbedding_vector (t : String) :
    (createEmbedding t).vector =
      (distinctFirstSeen (tokensOf t)).map
        (fun w => ((tokensOf t).count w : ℚ) / ((tokensOf t).length : ℚ)) := rfl

theorem mem_vocabulary_iff (t : String) (w : Token) :
    w ∈ (createEmbedding t).vocabulary ↔ w ∈ tokensOf t := by
  rw [createEmbedding_vocabulary]
  exact mem_distinctFirstSeen (tokensOf t) w

theorem mem_commonWords (vocab1 vocab2 : List Token) (w : Token) :
    w ∈ commonWords vocab1 vocab2 ↔ w ∈ vocab1 ∧ w ∈ vocab2 := by
  rw [commonWords, List.mem_filter]
  simp

theorem getD_map_indexOf {α β : Type} [BEq α] [LawfulBEq α] (f : α → β) (d : β) :
    ∀ (l : List α) (w : α), w ∈ l → (l.map f).getD (l.indexOf w) d = f w := by
  intro l
  induction l with
  | nil => intro w hw; exact absurd hw (List.not_mem_nil w)
  | cons y ys ih =>
    intro w hw
    rw [List.map_cons, List.indexOf_cons]
    by_cases h : (y == w) = true
    · rw [h]
      simp only [cond_true, List.getD_cons_zero]
      rw [eq_of_beq h]
    · rw [Bool.eq_false_iff.mpr h]
      simp only [cond_false, List.getD_cons_succ]
      apply ih
      rcases List.mem_cons.mp hw with hw | hw
      · exact absurd (beq_iff_eq.mpr hw.symm) h
      · exact hw

theorem vector_getD_indexOf (t : String) (w : Token)
    (hw : w ∈ (createEmbedding t).vocabulary) :
    (createEmbedding t).vector.getD ((createEmbedding t).vocabulary.indexOf w) 0 =
      ((tokensOf t).count w : ℚ) / ((tokensOf t).length : ℚ) := by
  rw [createEmbedding_vocabulary] at hw ⊢
  rw [createEmbedding_vector]
  exact getD_map_indexOf _ 0 (distinctFirstSeen (tokensOf t)) w hw

theorem freq_pos (t : String) (w : Token) (hw : w ∈ tokensOf t) :
    0 < ((tokensOf t).count w : ℚ) / ((tokensOf t).length : ℚ) := by
  apply div_pos
  · exact_mod_cast List.count_pos_iff.mpr hw
  · exact_mod_cast List.length_pos.mpr (List.ne_nil_of_mem hw)

theorem interVals_embedding (t1 t2 : String) :
    interVals (createEmbedding t1).vector (createEmbedding t2).vector
      (createEmbedding t1).vocabulary (createEmbedding t2).vocabulary =
    (commonWords (createEmbedding t1).vocabulary (createEmbedding t2).vocabulary).map
      (fun w => (((tokensOf t1).count w : ℚ) / ((tokensOf t1).length : ℚ),
        ((tokensOf t2).count w : ℚ) / ((tokensOf t2).length : ℚ))) := by
  rw [interVals]
  apply List.map_congr_left
  intro w hw
  obtain ⟨hw1, hw2⟩ := (mem_commonWords _ _ w).mp hw
  rw [vector_getD_indexOf t1 w hw1, vector_getD_indexOf t2 w hw2]

theorem interNorm1_embedding_pos (t1 t2 : String)
    (h : commonWords (createEmbedding t1).vocabulary (createEmbedding t2).vocabulary ≠ []) :
    0 < interNorm1 (createEmbedding t1).vector (createEmbedding t2).vector
      (createEmbedding t1).vocabulary (createEmbedding t2).vocabulary := by
  rw [interNorm1, interVals_embedding, List.map_map]
  apply List.sum_pos
  · intro x hx
    rw [List.mem_map] at hx
    obtain ⟨w, hw, hxw⟩ := hx
    obtain ⟨hw1, _⟩ := (mem_commonWords _ _ w).mp hw
    have hp := freq_pos t1 w ((mem_vocabulary_iff t1 w).mp hw1)
    rw [← hxw]
    exact mul_pos hp hp
  · rw [ne_eq, List.map_eq_nil_iff]
    exact h

theorem interNorm2_embedding_pos (t1 t2 : String)
    (h : commonWords (createEmbedding t1).vocabulary (createEmbedding t2).vocabulary ≠ []) :
    0 < interNorm2 (createEmbedding t1).vector (createEmbedding t2).vector
      (createEmbedding t1).vocabulary (createEmbedding t2).vocabulary := by
  rw [interNorm2, interVals_embedding, List.map_map]
  apply List.sum_pos
  · intro x hx
    rw [List.mem_map] at hx
    obtain ⟨w, hw, hxw⟩ := hx
    obtain ⟨_, hw2⟩ := (mem_commonWords _ _ w).mp hw
    have hp := freq_pos t2 w ((mem_vocabulary_iff t2 w).mp hw2)
    rw [← hxw]
    exact mul_pos hp hp
  · rw [ne_eq, List.map_eq_nil_iff]
    exact h

theorem cosineSimilarity_eq_zero (vec1 vec2 : List ℚ) (vocab1 vocab2 : List Token)
    (h : commonWords vocab1 vocab2 = []) :
    cosineSimilarity vec1 vec2 vocab1 vocab2 = 0 := by
  rw [cosineSimilarity, if_pos h]

theorem cosineSimilarity_self_embedding (t : String) (h : tokensOf t ≠ []) :
    cosineSimilarity (createEmbedding t).vector (createEmbedding t).vector
      (createEmbedding t).vocabulary (createEmbedding t).vocabulary = 1 := by
  have hcw : commonWords (createEmbedding t).vocabulary (createEmbedding t).vocabulary =
      (createEmbedding t).vocabulary := by
    apply List.filter_eq_self.mpr
    intro w hw
    exact decide_eq_true hw
  have hne : commonWords (createEmbedding t).vocabulary (createEmbedding t).vocabulary ≠ [] := by
    rw [hcw, createEmbedding_vocabulary]
    intro hc
    exact h ((distinctFirstSeen_eq_nil _).mp hc)
  have hdot : interDot (createEmbedding t).vector (createEmbedding t).vector
      (createEmbedding t).vocabulary (createEmbedding t).vocabulary =
      interNorm1 (createEmbedding t).vector (createEmbedding t).vector
        (createEmbedding t).vocabulary (createEmbedding t).vocabulary := by
    rw [interDot, interNorm1, interVals_embedding t t, List.map_map, List.map_map]
    rfl
  have hn2 : interNorm2 (createEmbedding t).vector (createEmbedding t).vector
      (createEmbedding t).vocabulary (createEmbedding t).vocabulary =
      interNorm1 (createEmbedding t).vector (createEmbedding t).vector
        (createEmbedding t).vocabulary (createEmbedding t).vocabulary := by
    rw [interNorm2, interNorm1, interVals_embedding t t, List.map_map, List.map_map]
    rfl
  have hpos := interNorm1_embedding_pos t t hne
  have hposR : (0 : ℝ) <
      (interNorm1 (createEmbedding t).vector (createEmbedding t).vector
        (createEmbedding t).vocabulary (createEmbedding t).vocabulary : ℝ) := by
    exact_mod_cast hpos
  rw [cosineSimilarity, if_neg hne, hdot, hn2,
    Real.mul_self_sqrt (le_of_lt hposR)]
  exact div_self (ne_of_gt hposR)

theorem sim_query_a_doc_a :
    cosineSimilarity (createEmbedding "a").vector (createEmbedding "a").vector
      (createEmbedding "a").vocabulary (createEmbedding "a").vocabulary = 1 :=
  cosineSimilarity_self_embedding "a" (by decide)

theorem sim_query_a_doc_b :
    cosineSimilarity (createEmbedding "a").vector (createEmbedding "b").vector
      (createEmbedding "a").vocabulary (createEmbedding "b").vocabulary = 0 :=
  cosineSimilarity_eq_zero _ _ _ _ (by decide)

theorem scoredList_storeA1 : scoredList storeA1 "a" = [⟨docA, 1⟩] := by
  simp only [scoredList, storeA1, docA, List.map_cons, List.map_nil, sim_query_a_doc_a]

theorem scoredList_storeBA : scoredList storeBA "a" = [⟨docB, 0⟩, ⟨docA, 1⟩] := by
  simp only [scoredList, storeBA, docB, docA, List.map_cons, List.map_nil,
    sim_query_a_doc_a, sim_query_a_doc_b]

theorem scoredList_storeAA : scoredList storeAA "a" = [⟨docA, 1⟩, ⟨docA, 1⟩] := by
  simp only [scoredList, storeAA, docA, List.map_cons, List.map_nil, sim_query_a_doc_a]

theorem search_storeA1_eval : storeA1.search "a" 3 = [⟨docA, 1⟩] := by
  rw [SimpleVectorStore.search, scoredList_storeA1]
  norm_num [sortDesc, insertDesc, List.filter_cons]

theorem search_storeBA_eval : storeBA.search "a" 3 = [⟨docA, 1⟩] := by
  rw [SimpleVectorStore.search, scoredList_storeBA]
  norm_num [sortDesc, insertDesc, List.filter_cons]

theorem search_storeAA_eval : storeAA.search "a" 2 = [⟨docA, 1⟩, ⟨docA, 1⟩] := by
  rw [SimpleVectorStore.search, scoredList_storeAA]
  norm_num [sortDesc, insertDesc, List.filter_cons]

theorem countP_storeAA :
    (scoredList storeAA "a").countP (fun r => decide ((0.1 : ℝ) < r.similarity)) = 2 := by
  rw [scoredList_storeAA]
  norm_num [List.countP_cons]

theorem cosineSimCore_one_one : cosineSimCore [1] [1] = 1 := by
  norm_num [cosineSimCore, List.zip, List.zipWith, Real.sqrt_one]

theorem cosineSimCore_one_zero : cosineSimCore [1] [0] = 0 := by
  norm_num [cosineSimCore, List.zip, List.zipWith, Real.sqrt_zero]

theorem simList_rstore2 : rstore2.simList [1] =
    [⟨"t0", ⟨[], 0, 2, 11⟩, 1, 0⟩, ⟨"t1", ⟨[], 1, 2, 11⟩, 0, 1⟩] := by
  rw [VectorStore.simList]
  norm_num [rstore2, List.range_succ, cosineSimCore_one_one, cosineSimCore_one_zero]

theorem search_rstore2_eval : rstore2.search [1] 5 =
    [⟨"t0", ⟨[], 0, 2, 11⟩, 1, 0⟩, ⟨"t1", ⟨[], 1, 2, 11⟩, 0, 1⟩] := by
  rw [VectorStore.search, simList_rstore2]
  norm_num [sortDesc, insertDesc]

/-- C7: the local term-frequency embedder lowercases the text, tokenises it
by the word pattern, and returns a vocabulary of the distinct tokens paired
with a vector of relative frequencies; the two lists always have equal
length, and both are empty exactly when the text has no word tokens. -/
theorem c7_local_embedder (t : String) :
    (createEmbedding t).vector.length = (createEmbedding t).vocabulary.length
    ∧ (createEmbedding t).vocabulary.Nodup
    ∧ (∀ w : Token, w ∈ (createEmbedding t).vocabulary ↔ w ∈ tokensOf t)
    ∧ (∀ i : ℕ, i < (createEmbedding t).vocabulary.length →
        ∃ w : Token, (createEmbedding t).vocabulary.get? i = some w ∧
          (createEmbedding t).vector.get? i =
            some (((tokensOf t).count w : ℚ) / ((tokensOf t).length : ℚ)))
    ∧ ((createEmbedding t).vector = [] ↔ tokensOf t = [])
    ∧ ((createEmbedding t).vocabulary = [] ↔ tokensOf t = []) := by
  refine ⟨?_, ?_, ?_, ?_, ?_, ?_⟩
  · rw [createEmbedding_vector, createEmbedding_vocabulary, List.length_map]
  · rw [createEmbedding_vocabulary]
    exact nodup_distinctFirstSeen _
  · exact mem_vocabulary_iff t
  · intro i hi
    rw [createEmbedding_vocabulary] at hi
    refine ⟨(distinctFirstSeen (tokensOf t)).get ⟨i, hi⟩, ?_, ?_⟩
    · rw [createEmbedding_vocabulary]
      exact List.get?_eq_get hi
    · rw [createEmbedding_vector, List.get?_map, List.get?_eq_get hi]
      rfl
  · rw [createEmbedding_vector, List.map_eq_nil_iff, distinctFirstSeen_eq_nil]
  · rw [createEmbedding_vocabulary, distinctFirstSeen_eq_nil]

/-- Witness for C7 at the text `"a b a"` and index `0`. -/
theorem c7_witness :
    0 < (createEmbedding "a b a").vocabulary.length
    ∧ ∃ w : Token, (createEmbedding "a b a").vocabulary.get? 0 = some w ∧
        (createEmbedding "a b a").vector.get? 0 =
          some (((tokensOf "a b a").count w : ℚ) / ((tokensOf "a b a").length : ℚ)) :=
  ⟨by decide, (c7_local_embedder "a b a").2.2.2.1 0 (by decide)⟩

/-- C10: the local similarity is always a well-defined finite real: on an
empty vocabulary intersection it is literally `0`, and otherwise both
intersected norm sums are strictly positive, so the division is by a
nonzero number. -/
theorem c10_local_similarity_welldefined (t1 t2 : String) :
    (commonWords (createEmbedding t1).vocabulary (createEmbedding t2).vocabulary = []
      ∧ cosineSimilarity (createEmbedding t1).vector (createEmbedding t2).vector
          (createEmbedding t1).vocabulary (createEmbedding t2).vocabulary = 0)
    ∨ (0 < interNorm1 (createEmbedding t1).vector (createEmbedding t2).vector
          (createEmbedding t1).vocabulary (createEmbedding t2).vocabulary
      ∧ 0 < interNorm2 (createEmbedding t1).vector (createEmbedding t2).vector
          (createEmbedding t1).vocabulary (createEmbedding t2).vocabulary
      ∧ Real.sqrt (interNorm1 (createEmbedding t1).vector (createEmbedding t2).vector
            (createEmbedding t1).vocabulary (createEmbedding t2).vocabulary : ℝ) *
          Real.sqrt (interNorm2 (createEmbedding t1).vector (createEmbedding t2).vector
            (createEmbedding t1).vocabulary (createEmbedding t2).vocabulary : ℝ) ≠ 0
      ∧ cosineSimilarity (createEmbedding t1).vector (createEmbedding t2).vector
          (createEmbedding t1).vocabulary (createEmbedding t2).vocabulary =
        (interDot (createEmbedding t1).vector (createEmbedding t2).vector
            (createEmbedding t1).vocabulary (createEmbedding t2).vocabulary : ℝ) /
          (Real.sqrt (interNorm1 (createEmbedding t1).vector (createEmbedding t2).vector
              (createEmbedding t1).vocabulary (createEmbedding t2).vocabulary : ℝ) *
            Real.sqrt (interNorm2 (createEmbedding t1).vector (createEmbedding t2).vector
              (createEmbedding t1).vocabulary (createEmbedding t2).vocabulary : ℝ))) := by
  by_cases h : commonWords (createEmbedding t1).vocabulary (createEmbedding t2).vocabulary = []
  · exact Or.inl ⟨h, cosineSimilarity_eq_zero _ _ _ _ h⟩
  · refine Or.inr ⟨interNorm1_embedding_pos t1 t2 h, interNorm2_embedding_pos t1 t2 h, ?_, ?_⟩
    · apply ne_of_gt
      apply mul_pos
      · apply Real.sqrt_pos.mpr
        exact_mod_cast interNorm1_embedding_pos t1 t2 h
      · apply Real.sqrt_pos.mpr
        exact_mod_cast interNorm2_embedding_pos t1 t2 h
    · rw [cosineSimilarity, if_neg h]

/-- C2 counterexample: a store loaded from an unparseable file does not
return `false`; `JSON.parse` throws instead. -/
theorem c2_counterexample :
    VectorStore.loadFromFile emptyVS FileRead.unparseable ≠ Except.ok (false, emptyVS) := by
  simp [VectorStore.loadFromFile]

/-- C2 amended: `loadFromFile` returns `false` leaving state untouched only
for a missing file; a parse failure propagates the `JSON.parse` exception
(still leaving state untouched); a successful parse replaces all three
arrays (the result is independent of the prior store state) and returns
`true`. -/
theorem c2_load_behaviour (st st2 : VectorStore) (d : PersistedData) :
    st.loadFromFile FileRead.missing = Except.ok (false, st)
    ∧ st.loadFromFile FileRead.unparseable = Except.error ()
    ∧ st.loadFromFile (FileRead.parsed d) =
        Except.ok (true, ⟨d.vectors.getD [], d.texts.getD [], d.metadata.getD []⟩)
    ∧ st.loadFromFile (FileRead.parsed d) = st2.loadFromFile (FileRead.parsed d) :=
  ⟨rfl, rfl, rfl, rfl⟩

/-- C5: `calculateSimilarity` performs no dimensionality check.  A query
longer than the stored vector silently yields NaN (`none`) — or even `0`
when the query is all zeros — and a query shorter than the stored vector
silently yields a value computed over the query's dimensions only (here
`1`).  Nothing fails loudly. -/
theorem c5_mismatch_is_silent :
    VectorStore.calculateSimilarity [1, 0] [1] = none
    ∧ VectorStore.calculateSimilarity [1] [1, 1] = some 1
    ∧ VectorStore.calculateSimilarity [0, 0] [1] = some 0 := by
  refine ⟨?_, ?_, ?_⟩
  · rw [VectorStore.calculateSimilarity]
    norm_num [sumSq]
  · rw [VectorStore.calculateSimilarity]
    norm_num [cosineSimCore, List.zip, List.zipWith, Real.sqrt_one]
  · rw [VectorStore.calculateSimilarity]
    norm_num [sumSq]

/-- C8 counterexample: on an empty store `averageTextLength` is NaN
(modelled `none`), not `0`: the division is unguarded. -/
theorem c8_counterexample :
    (VectorStore.getStats emptyVS).averageTextLength = none
    ∧ (VectorStore.getStats emptyVS).averageTextLength ≠ some 0 := by
  constructor
  · rfl
  · intro h
    exact Option.noConfusion h

/-- C8 amended: `getStats` reports the record counts and the first stored
vector's length (0 when empty) as claimed, but `averageTextLength` is NaN
(`none`) exactly on the empty store; when it is defined it equals the mean
character length. -/
theorem c8_stats (st : VectorStore) :
    st.getStats.totalVectors = st.vectors.length
    ∧ st.getStats.totalTexts = st.texts.length
    ∧ st.getStats.vectorDimension = (st.vectors.headD []).length
    ∧ (st.getStats.averageTextLength = none ↔ st.texts = [])
    ∧ (∀ x : ℚ, st.getStats.averageTextLength = some x →
        x * (st.texts.length : ℚ) = (st.texts.map (fun t => (t.toList.length : ℚ))).sum) := by
  refine ⟨rfl, rfl, ?_, ?_, ?_⟩
  · rcases hl : st.vectors with _ | ⟨v, vs⟩ <;> simp [VectorStore.getStats, hl]
  · by_cases h : st.texts.length = 0
    · simp [VectorStore.getStats, h, List.length_eq_zero.mp h]
    · have hne : st.texts ≠ [] := by
        intro hc
        rw [hc] at h
        exact h rfl
      simp [VectorStore.getStats, h, hne]
  · intro x hx
    by_cases h : st.texts.length = 0
    · simp [VectorStore.getStats, h] at hx
    · simp only [VectorStore.getStats, if_neg h] at hx
      have hx2 := Option.some.inj hx
      rw [← hx2]
      exact div_mul_cancel₀ _ (by exact_mod_cast h)

/-- Witness for C8 on a one-record store with text `"ab"`. -/
theorem c8_witness :
    (VectorStore.getStats vsOne).averageTextLength = some 2
    ∧ (2 : ℚ) * (vsOne.texts.length : ℚ) =
        (vsOne.texts.map (fun t => (t.toList.length : ℚ))).sum := by
  have h : (VectorStore.getStats vsOne).averageTextLength = some 2 := by
    norm_num [VectorStore.getStats, vsOne, show ("ab".toList.length) = 2 from rfl,
      show ("ab".length) = 2 from rfl]
  exact ⟨h, (c8_stats vsOne).2.2.2.2 2 h⟩

/-- C9: no `EmptyInputError` exists anywhere in the source.  The local
store embeds empty or whitespace-only text and appends a degenerate
record whose vector is the empty list; the remote store silently appends
nothing (its chunk list is empty) and raises no error either. -/
theorem c9_empty_input_not_rejected (embed : String → List ℚ) (md : Metadata) :
    (SimpleVectorStore.addDocument ⟨[], []⟩ "" []).documents = [⟨"", [], ⟨[], [], ""⟩⟩]
    ∧ (SimpleVectorStore.addDocument ⟨[], []⟩ " " []).documents = [⟨" ", [], ⟨[], [], " "⟩⟩]
    ∧ (createEmbedding " ").vector = []
    ∧ VectorStore.addText embed ⟨[], [], []⟩ "" md = ⟨[], [], []⟩
    ∧ VectorStore.addText embed ⟨[], [], []⟩ " " md = ⟨[], [], []⟩ :=
  ⟨rfl, rfl, rfl, rfl, rfl⟩

/-- C1: the local `search` returns at most `k` results, every one strictly
above the `0.1` threshold, and exactly `k` whenever at least `k` scored
documents clear the threshold (filtering after truncation commutes on the
descending-sorted list); the remote `search` applies no filter and always
returns `min k n` results. -/
theorem c1_topk_bound (st : SimpleVectorStore) (q : String) (k : ℕ)
    (vst : VectorStore) (qv : List ℚ) (k2 : ℕ) :
    (st.search q k).length ≤ k
    ∧ (∀ r ∈ st.search q k, (0.1 : ℝ) < r.similarity)
    ∧ (k ≤ (scoredList st q).countP (fun r => decide ((0.1 : ℝ) < r.similarity)) →
        (st.search q k).length = k)
    ∧ (vst.search qv k2).length = min k2 vst.vectors.length := by
  have hsorted := sortDesc_sorted ScoredDoc.similarity (scoredList st q)
  have hlen : (st.search q k).length =
      min k ((sortDesc ScoredDoc.similarity (scoredList st q)).countP
        (fun r => decide ((0.1 : ℝ) < r.similarity))) :=
    length_take_filter_of_sorted ScoredDoc.similarity 0.1 _ hsorted k
  have hcount : (sortDesc ScoredDoc.similarity (scoredList st q)).countP
      (fun r => decide ((0.1 : ℝ) < r.similarity)) =
      (scoredList st q).countP (fun r => decide ((0.1 : ℝ) < r.similarity)) :=
    List.Perm.countP_eq _ (sortDesc_perm ScoredDoc.similarity (scoredList st q))
  refine ⟨?_, ?_, ?_, ?_⟩
  · rw [hlen]
    exact min_le_left _ _
  · intro r hr
    rw [SimpleVectorStore.search, List.mem_filter] at hr
    exact of_decide_eq_true hr.2
  · intro h
    rw [hlen, hcount]
    exact min_eq_left h
  · rw [VectorStore.search, List.length_take,
      (sortDesc_perm RemoteResult.similarity (vst.simList qv)).length_eq,
      VectorStore.simList, List.length_map, List.length_range]

/-- Witness for C1 on a two-document store where both documents clear the
threshold and `k = 2`. -/
theorem c1_witness :
    2 ≤ (scoredList storeAA "a").countP (fun r => decide ((0.1 : ℝ) < r.similarity))
    ∧ (storeAA.search "a" 2).length = 2 := by
  have h : 2 ≤ (scoredList storeAA "a").countP
      (fun r => decide ((0.1 : ℝ) < r.similarity)) := by
    rw [countP_storeAA]
  exact ⟨h, (c1_topk_bound storeAA "a" 2 emptyVS [] 0).2.2.1 h⟩

theorem jsTrim_length_le (l : List Char) : (jsTrim l).length ≤ l.length := by
  rw [jsTrim, List.length_reverse]
  calc ((l.dropWhile isJsSpace).reverse.dropWhile isJsSpace).length
      ≤ (l.dropWhile isJsSpace).reverse.length :=
        (List.dropWhile_sublist isJsSpace).length_le
    _ = (l.dropWhile isJsSpace).length := List.length_reverse _
    _ ≤ l.length := (List.dropWhile_sublist isJsSpace).length_le

theorem le_foldr_max : ∀ (l : List ℕ) (x : ℕ), x ∈ l → x ≤ l.foldr max 0 := by
  intro l
  induction l with
  | nil => intro x hx; exact absurd hx (List.not_mem_nil x)
  | cons y ys ih =>
    intro x hx
    rcases List.mem_cons.mp hx with hx | hx
    · rw [hx, List.foldr_cons]
      exact le_max_left _ _
    · rw [List.foldr_cons]
      exact le_trans (ih x hx) (le_max_right _ _)

theorem chunk_bound_aux (maxSize M : ℕ) :
    ∀ (ss : List (List Char)) (st : List (List Char) × List Char),
      (∀ s ∈ ss, s.length ≤ M) →
      (∀ c ∈ st.1, c.length ≤ max (maxSize + 2) M) →
      st.2.length ≤ max (maxSize + 2) M →
      (∀ c ∈ (ss.foldl (chunkStep maxSize) st).1, c.length ≤ max (maxSize + 2) M)
        ∧ (ss.foldl (chunkStep maxSize) st).2.length ≤ max (maxSize + 2) M := by
  intro ss
  induction ss with
  | nil => intro st _ h1 h2; exact ⟨h1, h2⟩
  | cons s ts ih =>
    intro st hss h1 h2
    have hsM : s.length ≤ M := hss s (List.mem_cons_self s ts)
    have htsM : ∀ s2 ∈ ts, s2.length ≤ M :=
      fun s2 hs2 => hss s2 (List.mem_cons_of_mem s hs2)
    simp only [List.foldl_cons]
    by_cases hc : maxSize < st.2.length + s.length ∧ 0 < st.2.length
    · rw [chunkStep, if_pos hc]
      refine ih _ htsM ?_ ?_
      · intro c hcm
        rcases List.mem_append.mp hcm with hcm | hcm
        · exact h1 c hcm
        · rw [List.mem_singleton.mp hcm]
          exact le_trans (jsTrim_length_le st.2) h2
      · exact le_trans (jsTrim_length_le s)
          (le_trans hsM (le_max_right (maxSize + 2) M))
    · rw [chunkStep, if_neg hc]
      refine ih _ htsM h1 ?_
      by_cases hn : st.2 = []
      · have h3 : (st.2 ++ (if st.2 = [] then [] else ['.', ' ']) ++ jsTrim s) = jsTrim s := by
          rw [hn]
          simp
        rw [h3]
        exact le_trans (jsTrim_length_le s)
          (le_trans hsM (le_max_right (maxSize + 2) M))
      · have hpos : 0 < st.2.length := List.length_pos.mpr hn
        have hle : st.2.length + s.length ≤ maxSize := by
          by_contra habs
          push_neg at habs
          exact hc ⟨habs, hpos⟩
        rw [if_neg hn]
        simp only [List.length_append, List.length_cons, List.length_nil]
        have := jsTrim_length_le s
        have := le_max_left (maxSize + 2) M
        omega

/-- C4 amended: every chunk produced by `splitTextIntoChunks` has length at
most `max (maxChunkSize + 2) (maxSentenceLen text)`: the `'. '` joiner adds
two characters the size guard does not count, and a single sentence longer
than the maximum becomes an oversized chunk of its own.  (The claim's plain
`maxChunkSize` bound is false; see the counterexample.) -/
theorem c4_chunk_bound (text : String) (maxChunkSize : ℕ) :
    ∀ c ∈ splitTextIntoChunks text maxChunkSize,
      c.length ≤ max (maxChunkSize + 2) (maxSentenceLen text) := by
  intro c hc
  have hsent : ∀ s ∈ sentencesOf text.toList, s.length ≤ maxSentenceLen text := by
    intro s hs
    apply le_foldr_max
    rw [List.mem_map]
    exact ⟨s, hs, rfl⟩
  have haux := chunk_bound_aux maxChunkSize (maxSentenceLen text)
    (sentencesOf text.toList) ([], []) hsent
    (by intro c2 hc2; exact absurd hc2 (List.not_mem_nil c2))
    (by simp)
  simp only [splitTextIntoChunks] at hc
  by_cases hif : jsTrim ((sentencesOf text.toList).foldl
      (chunkStep maxChunkSize) ([], [])).2 ≠ []
  · rw [if_pos hif] at hc
    rcases List.mem_append.mp hc with hc | hc
    · exact haux.1 c hc
    · rw [List.mem_singleton.mp hc]
      exact le_trans (jsTrim_length_le _) haux.2
  · rw [if_neg hif] at hc
    exact haux.1 c hc

/-- C4 counterexample: with `maxChunkSize = 10`, two five-character
sentences are joined into a single twelve-character chunk, because the
guard `currentChunk.length + sentence.length > maxChunkSize` ignores the
two characters of the `'. '` joiner. -/
theorem c4_counterexample :
    splitTextIntoChunks "aaaaa.bbbbb." 10 = ["aaaaa. bbbbb".toList]
    ∧ ("aaaaa. bbbbb".toList).length = 12 ∧ 10 < 12 :=
  ⟨by decide, by decide, by decide⟩

/-- Witness for C4 at the counterexample input. -/
theorem c4_witness :
    "aaaaa. bbbbb".toList ∈ splitTextIntoChunks "aaaaa.bbbbb." 10
    ∧ ("aaaaa. bbbbb".toList).length ≤ max (10 + 2) (maxSentenceLen "aaaaa.bbbbb.") := by
  have h : "aaaaa. bbbbb".toList ∈ splitTextIntoChunks "aaaaa.bbbbb." 10 := by decide
  exact ⟨h, c4_chunk_bound "aaaaa.bbbbb." 10 _ h⟩

/-- C3 counterexample: no function of a local search result can recover
the matched document's position in the full record list — the result
carries only `{document, similarity}`.  The stores `[docA]` and
`[docB, docA]` produce identical search results for the query `"a"`,
yet `docA` sits at position 0 in the first store and position 1 in the
second. -/
theorem c3_counterexample : ¬ localResultsCarryIndex := by
  rintro ⟨ix, hix⟩
  have hmem1 : (⟨docA, 1⟩ : ScoredDoc) ∈ storeA1.search "a" 3 := by
    rw [search_storeA1_eval]
    exact List.mem_singleton_self _
  have hmem2 : (⟨docA, 1⟩ : ScoredDoc) ∈ storeBA.search "a" 3 := by
    rw [search_storeBA_eval]
    exact List.mem_singleton_self _
  have h1 := hix storeA1 "a" 3 ⟨docA, 1⟩ hmem1
  have h2 := hix storeBA "a" 3 ⟨docA, 1⟩ hmem2
  rcases hi : ix ⟨docA, 1⟩ with _ | j
  · rw [hi] at h2
    have hBA : storeBA.documents.get? 0 = some docB := rfl
    rw [hBA] at h2
    have : docB = docA := Option.some.inj h2
    have htext := congrArg LocalDocument.text this
    simp only [docB, docA] at htext
    exact absurd htext (by decide)
  · rw [hi] at h1
    have hA1 : storeA1.documents.get? (j + 1) = none := by
      cases j <;> rfl
    rw [hA1] at h1
    exact Option.noConfusion h1

theorem get?_eq_some_getD {α : Type} (l : List α) (i : ℕ) (d : α) (h : i < l.length) :
    l.get? i = some (l.getD i d) := by
  rw [List.get?_eq_getElem?, List.getD_eq_getElem?_getD, List.getElem?_eq_getElem h]
  rfl

/-- C3 amended: remote search results carry an `index` equal to the
zero-based position of the matched record in the full insertion-ordered
store, with `text`, `metadata` and `similarity` read off at that position;
local search results carry only the document record itself (which does
occur at some position of the store) and its similarity, with no index
field. -/
theorem c3_result_index (vst : VectorStore) (qv : List ℚ) (k : ℕ)
    (st : SimpleVectorStore) (q : String) (k2 : ℕ)
    (hw : vst.texts.length = vst.vectors.length ∧
      vst.metadata.length = vst.vectors.length) :
    (∀ r ∈ vst.search qv k,
      r.index < vst.vectors.length
      ∧ vst.texts.get? r.index = some r.text
      ∧ vst.metadata.get? r.index = some r.metadata
      ∧ r.similarity = cosineSimCore qv (vst.vectors.getD r.index []))
    ∧ (∀ r ∈ st.search q k2, ∃ i, st.documents.get? i = some r.document) := by
  constructor
  · intro r hr
    rw [VectorStore.search] at hr
    have hr2 : r ∈ vst.simList qv :=
      (mem_sortDesc RemoteResult.similarity (vst.simList qv) r).mp
        (List.mem_of_mem_take hr)
    rw [VectorStore.simList, List.mem_map] at hr2
    obtain ⟨i, hi, heq⟩ := hr2
    rw [List.mem_range] at hi
    subst heq
    refine ⟨hi, ?_, ?_, rfl⟩
    · have hit : i < vst.texts.length := by rw [hw.1]; exact hi
      exact get?_eq_some_getD vst.texts i "" hit
    · have him : i < vst.metadata.length := by rw [hw.2]; exact hi
      exact get?_eq_some_getD vst.metadata i ⟨[], 0, 0, 0⟩ him
  · intro r hr
    rw [SimpleVectorStore.search, List.mem_filter] at hr
    have hr2 : r ∈ scoredList st q :=
      (mem_sortDesc ScoredDoc.similarity (scoredList st q) r).mp
        (List.mem_of_mem_take hr.1)
    rw [scoredList, List.mem_map] at hr2
    obtain ⟨doc, hdoc, heq⟩ := hr2
    obtain ⟨i, hi⟩ := List.mem_iff_get?.mp hdoc
    refine ⟨i, ?_⟩
    rw [hi, ← heq]

/-- Witness for C3 on concrete stores: a well-formed two-record remote
store and a one-record local store. -/
theorem c3_witness :
    (rstore2.texts.length = rstore2.vectors.length ∧
      rstore2.metadata.length = rstore2.vectors.length)
    ∧ ((∀ r ∈ rstore2.search [1] 5,
        r.index < rstore2.vectors.length
        ∧ rstore2.texts.get? r.index = some r.text
        ∧ rstore2.metadata.get? r.index = some r.metadata
        ∧ r.similarity = cosineSimCore [1] (rstore2.vectors.getD r.index []))
      ∧ (∀ r ∈ storeA1.search "a" 3, ∃ i, storeA1.documents.get? i = some r.document)) :=
  ⟨⟨rfl, rfl⟩, c3_result_index rstore2 [1] 5 storeA1 "a" 3 ⟨rfl, rfl⟩⟩

/-- C6: under both strategies the search output is non-increasing in
similarity, and ties keep insertion order.  For the local strategy the
results are the projection of an index-decorated list `dec` whose entries
point into the scored list (which is in insertion order) and which is
sorted by strictly-descending similarity with ties strictly increasing in
position; for the remote strategy the `index` field itself witnesses the
tie-break. -/
theorem c6_ranking_order (st : SimpleVectorStore) (q : String) (k : ℕ)
    (vst : VectorStore) (qv : List ℚ) (k2 : ℕ) :
    ((st.search q k).Pairwise (fun a b => b.similarity ≤ a.similarity)
      ∧ ∃ dec : List (ℕ × ScoredDoc),
          dec.map Prod.snd = st.search q k
          ∧ (∀ p ∈ dec, (scoredList st q).get? p.1 = some p.2)
          ∧ dec.Pairwise (fun a b => b.2.similarity < a.2.similarity
              ∨ (a.2.similarity = b.2.similarity ∧ a.1 < b.1)))
    ∧ ((vst.search qv k2).Pairwise (fun a b => b.similarity ≤ a.similarity)
      ∧ (vst.search qv k2).Pairwise
          (fun a b => a.similarity = b.similarity → a.index < b.index)) := by
  have hs1 : (st.search q k).Pairwise (fun a b => b.similarity ≤ a.similarity) := by
    rw [SimpleVectorStore.search]
    exact List.Pairwise.sublist
      ((List.filter_sublist _).trans (List.take_sublist k _))
      (sortDesc_sorted ScoredDoc.similarity (scoredList st q))
  have hmap0 : (zipIdxFrom 0 (scoredList st q)).map Prod.snd = scoredList st q :=
    zipIdxFrom_map_snd 0 _
  have hsm : sortDesc ScoredDoc.similarity (scoredList st q) =
      (sortDesc (fun p : ℕ × ScoredDoc => p.2.similarity)
        (zipIdxFrom 0 (scoredList st q))).map Prod.snd := by
    have h := sortDesc_map ScoredDoc.similarity Prod.snd (zipIdxFrom 0 (scoredList st q))
    rw [hmap0] at h
    exact h
  refine ⟨⟨hs1, ?_⟩, ?_, ?_⟩
  · refine ⟨((sortDesc (fun p : ℕ × ScoredDoc => p.2.similarity)
        (zipIdxFrom 0 (scoredList st q))).take k).filter
        ((fun r : ScoredDoc => decide ((0.1 : ℝ) < r.similarity)) ∘ Prod.snd),
      ?_, ?_, ?_⟩
    · rw [SimpleVectorStore.search, hsm, ← List.map_take, List.filter_map]
    · intro p hp
      have hp1 : p ∈ (sortDesc (fun p : ℕ × ScoredDoc => p.2.similarity)
          (zipIdxFrom 0 (scoredList st q))).take k := (List.mem_filter.mp hp).1
      have hp2 : p ∈ zipIdxFrom 0 (scoredList st q) :=
        (sortDesc_perm _ _).mem_iff.mp (List.mem_of_mem_take hp1)
      have hget := (mem_zipIdxFrom 0 (scoredList st q) p hp2).2
      rw [Nat.sub_zero] at hget
      exact hget
    · have hP0 : (zipIdxFrom 0 (scoredList st q)).Pairwise (fun a b => a.1 < b.1) :=
        pairwise_fst_lt_zipIdxFrom 0 _
      have hPS := sortDesc_pairwise_stable
        (fun p : ℕ × ScoredDoc => p.2.similarity) (fun a b => a.1 < b.1)
        (zipIdxFrom 0 (scoredList st q)) hP0
      exact List.Pairwise.sublist
        ((List.filter_sublist _).trans (List.take_sublist k _)) hPS
  · rw [VectorStore.search]
    exact List.Pairwise.sublist (List.take_sublist k2 _)
      (sortDesc_sorted RemoteResult.similarity (vst.simList qv))
  · have hri : (vst.simList qv).Pairwise (fun a b => a.index < b.index) := by
      rw [VectorStore.simList, List.pairwise_map]
      exact (List.pairwise_lt_range _).imp (fun h => h)
    have hPS2 := sortDesc_pairwise_stable RemoteResult.similarity
      (fun a b => a.index < b.index) (vst.simList qv) hri
    have hsub : (vst.search qv k2).Pairwise
        (fun a b => b.similarity < a.similarity
          ∨ (a.similarity = b.similarity ∧ a.index < b.index)) := by
      rw [VectorStore.search]
      exact List.Pairwise.sublist (List.take_sublist k2 _) hPS2
    refine hsub.imp ?_
    intro a b h heq
    rcases h with h | h
    · rw [heq] at h
      exact absurd h (lt_irrefl _)
    · exact h.2

/-- Witness for C6 on concrete stores. -/
theorem c6_witness :
    (storeA1.search "a" 3).Pairwise (fun a b => b.similarity ≤ a.similarity)
    ∧ (rstore2.search [1] 5).Pairwise
        (fun a b => a.similarity = b.similarity → a.index < b.index) :=
  ⟨(c6_ranking_order storeA1 "a" 3 rstore2 [1] 5).1.1,
    (c6_ranking_order storeA1 "a" 3 rstore2 [1] 5).2.2⟩
